import Mathlib

/-!
Verification of the hacker-news client against its specification.

The repository's routing shell is `src/src/index.js`: it declares two
react-router routes, `<Route exact path="/" component={TopNews} />` and
`<Route path="/new" component={NewNews} />`, each of which renders the
`News` component with a fixed upstream listing URL.  We embed a browser
path as the list of its non-empty segments (so "/" is `[]`, "/new" is
`["new"]`, "/new/x" is `["new", "x"]`); react-router v4/v5 semantics make
an `exact` route match only the full path while a non-exact route matches
any path extending it on a segment boundary.  `App` returns, in
declaration order, the props of every mounted `News` component.

The `News` component (the List View) is imported by `index.js` but its
file is not part of the sources available here, so the List View is
modelled from the specification (sections 4.2 to 4.4, 5 and 9): listing
and item fetches complete asynchronously as events carrying the listing
URL they were issued for, results are collected keyed by item id, stale
completions are discarded by comparing against the active listing URL,
and rendering follows the listing order regardless of completion order.
-/

namespace HackerNews

/-! ## Routing (from src/src/index.js) -/

/-- The constant listing URL from `TopNews` in src/src/index.js. -/
def topNewsUrl : String := "https://hacker-news.firebaseio.com/v0/topstories.json"

/-- The constant listing URL from `NewNews` in src/src/index.js. -/
def newestNewsUrl : String := "https://hacker-news.firebaseio.com/v0/newstories.json"

/-- Props passed to the `News` component: the upstream listing URL. -/
structure NewsProps where
  url : String
deriving DecidableEq

/-- `TopNews` from src/src/index.js: renders `News` with the top-stories URL.
The ignored argument stands for the React props, which the source ignores. -/
def TopNews (_props : Unit) : NewsProps := { url := topNewsUrl }

/-- `NewNews` from src/src/index.js: renders `News` with the new-stories URL. -/
def NewNews (_props : Unit) : NewsProps := { url := newestNewsUrl }

/-- Matching of `<Route exact path="/" />`: only the root path itself,
whose segment list is empty. -/
def matchesExactRoot (segs : List String) : Bool := segs.isEmpty

/-- Matching of `<Route path="/new" />` (declared without `exact`): every
path whose first segment is "new" matches, per react-router matching on a
segment boundary. -/
def matchesNewRoute (segs : List String) : Bool :=
  match segs with
  | [] => false
  | s :: _ => s == "new"

/-- `App` from src/src/index.js: the two `Route` declarations in order.
Its value is the list of `News` components mounted for the given path. -/
def App (segs : List String) : List NewsProps :=
  (if matchesExactRoot segs then [TopNews ()] else []) ++
  (if matchesNewRoute segs then [NewNews ()] else [])

/-! ## List View (the News component) -/

/-- Modelled from the spec: the `News` component imported by
src/src/index.js is not among the available sources; this is the Item
record of spec section 3: { id, title, url (optional), score, by
(author), time, descendants }.  The author field is named `author`
because `by` is reserved in Lean. -/
structure Item where
  id : Nat
  title : String
  url : Option String
  score : Int
  author : String
  time : Nat
  descendants : Nat
deriving DecidableEq

/-- Modelled from the spec: the List View's states of spec section 4.4,
{Idle, Loading, Ready}. -/
inductive Phase where
  | Idle
  | Loading
  | Ready
deriving DecidableEq

/-- Modelled from the spec: the asynchronous occurrences the List View
reacts to (spec sections 4.4 and 5).  A route change installs a new
listing URL; a listing fetch completes with the ordered id sequence; an
item fetch completes with the item, or with `none` on failure.  Each
completion carries the listing URL it was issued for, the key of the
superseded-request guard of spec section 5. -/
inductive Event where
  | routeChange (url : String)
  | listingDone (url : String) (ids : List Nat)
  | itemDone (url : String) (id : Nat) (res : Option Item)
deriving DecidableEq

/-- The listing URL an event was issued for. -/
def Event.url : Event → String
  | .routeChange u => u
  | .listingDone u _ => u
  | .itemDone u _ _ => u

/-- Whether an event is the completion of a fetch (as opposed to a route
change). -/
def Event.isCompletion : Event → Bool
  | .routeChange _ => false
  | .listingDone _ _ => true
  | .itemDone _ _ _ => true

/-- Modelled from the spec: the List View's state.  `activeUrl` is the
listing URL of the current route (none before any route is set),
`listingLoaded` records whether the listing fetch for that URL has
completed, `pendingIds` is the ordered id sequence of the listing, and
`results` collects completed item fetches keyed by item id (spec
section 9: collect results keyed by original position, gate on the
active route). -/
structure ViewState where
  activeUrl : Option String
  listingLoaded : Bool
  pendingIds : List Nat
  results : List (Nat × Option Item)
deriving DecidableEq

/-- The state before any route is installed. -/
def ViewState.init : ViewState :=
  { activeUrl := none, listingLoaded := false, pendingIds := [], results := [] }

/-- First collected result for an id, if any. -/
def findRes (rs : List (Nat × Option Item)) (i : Nat) : Option (Option Item) :=
  match rs with
  | [] => none
  | (j, r) :: t => if j = i then some r else findRes t i

/-- Modelled from the spec: one transition of the List View.  A route
change installs the new listing URL and clears all fetched data
(section 4.4: back to Loading whenever the listing URL changes).  A
completion is applied only when its URL equals the active listing URL;
otherwise it is superseded and discarded (section 5). -/
def step (s : ViewState) (e : Event) : ViewState :=
  match e with
  | .routeChange u =>
      { activeUrl := some u, listingLoaded := false, pendingIds := [], results := [] }
  | .listingDone u ids =>
      if s.activeUrl = some u then
        { s with listingLoaded := true, pendingIds := ids, results := [] }
      else s
  | .itemDone u i r =>
      if s.activeUrl = some u then
        { s with results := s.results ++ [(i, r)] }
      else s

/-- The List View after a sequence of events. -/
def run (s : ViewState) (evs : List Event) : ViewState := evs.foldl step s

/-- Modelled from the spec: the phase of the List View (section 4.4).
Idle before any route; Ready once the listing fetch and every item fetch
of the current listing have completed (a failed item fetch counts as
completed); Loading otherwise. -/
def ViewState.phase (s : ViewState) : Phase :=
  match s.activeUrl with
  | none => .Idle
  | some _ =>
      if s.listingLoaded && s.pendingIds.all (fun i => (findRes s.results i).isSome) then
        .Ready
      else
        .Loading

/-- Modelled from the spec: what the List View renders — the items in
listing order, each taken from the collected results, omitting ids whose
fetch failed or has not completed (sections 4.3, 4.4 and 7). -/
def render (s : ViewState) : List Item :=
  s.pendingIds.filterMap (fun i =>
    match findRes s.results i with
    | some (some it) => some it
    | _ => none)

/-- The ids of the rendered items, in rendered order. -/
def renderedIds (s : ViewState) : List Nat := (render s).map Item.id

/-- The completion events of the item fetches for the ids of `l`, in
that completion order, for listing URL `u`, with outcomes given by `g`. -/
def itemEvents (u : String) (g : Nat → Option Item) (l : List Nat) : List Event :=
  l.map (fun i => Event.itemDone u i (g i))

/-- An item record carrying only its id, for concrete scenarios. -/
def mkItem (i : Nat) : Item :=
  { id := i, title := "", url := none, score := 0, author := "", time := 0, descendants := 0 }

/-! ## Helper lemmas -/

theorem run_cons (s : ViewState) (e : Event) (t : List Event) :
    run s (e :: t) = run (step s e) t := rfl

theorem run_setup (u : String) (ids : List Nat) :
    run ViewState.init [Event.routeChange u, Event.listingDone u ids] =
      { activeUrl := some u, listingLoaded := true, pendingIds := ids, results := [] } := by
  simp [run, step, ViewState.init]

theorem run_itemEvents (u : String) (g : Nat → Option Item) (l : List Nat) (s : ViewState)
    (h : s.activeUrl = some u) :
    run s (itemEvents u g l) =
      { s with results := s.results ++ l.map (fun i => (i, g i)) } := by
  induction l generalizing s with
  | nil => simp [itemEvents, run]
  | cons i t ih =>
      have hstep : step s (Event.itemDone u i (g i)) =
          { s with results := s.results ++ [(i, g i)] } := by
        simp [step, h]
      have h2 : ({ s with results := s.results ++ [(i, g i)] } : ViewState).activeUrl = some u := h
      calc run s (itemEvents u g (i :: t))
          = run (step s (Event.itemDone u i (g i))) (itemEvents u g t) := rfl
        _ = run { s with results := s.results ++ [(i, g i)] } (itemEvents u g t) := by
              rw [hstep]
        _ = { s with results := (s.results ++ [(i, g i)]) ++ t.map (fun j => (j, g j)) } :=
              ih _ h2
        _ = { s with results := s.results ++ (i :: t).map (fun j => (j, g j)) } := by
              simp

theorem findRes_map (g : Nat → Option Item) (l : List Nat) (i : Nat) (h : i ∈ l) :
    findRes (l.map (fun j => (j, g j))) i = some (g i) := by
  induction l with
  | nil => simp at h
  | cons j t ih =>
      by_cases hj : j = i
      · subst hj
        simp [findRes]
      · have hmem : i ∈ t := by
          rcases List.mem_cons.mp h with h1 | h1
          · exact absurd h1.symm hj
          · exact h1
        simp [findRes, hj, ih hmem]

theorem filterMap_res (rs : List (Nat × Option Item)) (ids : List Nat) (g : Nat → Option Item)
    (hr : ∀ i ∈ ids, findRes rs i = some (g i)) :
    (ids.filterMap (fun i =>
      match findRes rs i with
      | some (some it) => some it
      | _ => none)) = ids.filterMap g := by
  induction ids with
  | nil => rfl
  | cons i t ih =>
      have hi := hr i (List.mem_cons_self i t)
      have ht : ∀ j ∈ t, findRes rs j = some (g j) :=
        fun j hj => hr j (List.mem_cons_of_mem i hj)
      cases hgi : g i with
      | none => simp [List.filterMap_cons, hi, hgi, ih ht]
      | some it => simp [List.filterMap_cons, hi, hgi, ih ht]

theorem render_eq_filterMap (s : ViewState) (g : Nat → Option Item)
    (hr : ∀ i ∈ s.pendingIds, findRes s.results i = some (g i)) :
    render s = s.pendingIds.filterMap g :=
  filterMap_res s.results s.pendingIds g hr

theorem filterMap_map_id (ids : List Nat) (g : Nat → Option Item)
    (hg : ∀ i it, g i = some it → it.id = i) :
    (ids.filterMap g).map Item.id = ids.filter (fun i => (g i).isSome) := by
  induction ids with
  | nil => rfl
  | cons i t ih =>
      cases hgi : g i with
      | none => simp [List.filterMap_cons, List.filter_cons, hgi, ih]
      | some it => simp [List.filterMap_cons, List.filter_cons, hgi, hg i it hgi, ih]

theorem run_stale (u : String) (s : ViewState) (hs : s.activeUrl = some u) :
    ∀ evs : List Event, (∀ e ∈ evs, Event.isCompletion e = true) →
      (∀ e ∈ evs, Event.url e ≠ u) → run s evs = s := by
  intro evs
  induction evs with
  | nil => intro _ _; rfl
  | cons e t ih =>
      intro hc hu
      have he : step s e = s := by
        cases e with
        | routeChange v =>
            have := hc (Event.routeChange v) (List.mem_cons_self _ _)
            simp [Event.isCompletion] at this
        | listingDone v ids =>
            have hvu : v ≠ u := by
              have := hu (Event.listingDone v ids) (List.mem_cons_self _ _)
              simpa [Event.url] using this
            have hne : s.activeUrl ≠ some v := by
              rw [hs]
              intro hh
              exact hvu (Option.some.inj hh).symm
            simp [step, hne]
        | itemDone v i r =>
            have hvu : v ≠ u := by
              have := hu (Event.itemDone v i r) (List.mem_cons_self _ _)
              simpa [Event.url] using this
            have hne : s.activeUrl ≠ some v := by
              rw [hs]
              intro hh
              exact hvu (Option.some.inj hh).symm
            simp [step, hne]
      rw [run_cons, he]
      exact ih (fun e hmem => hc e (List.mem_cons_of_mem _ hmem))
        (fun e hmem => hu e (List.mem_cons_of_mem _ hmem))

/-! ## Claims about routing -/

/-- Claim C3, counterexample: the claim says "/" and "/new" are the only
two recognized routes, but `<Route path="/new" />` is declared without
`exact`, so the path "/new/x" — which is neither "/" nor "/new" — is also
recognized and renders the new-stories view. -/
theorem c3_only_two_routes_counterexample :
    App ["new", "x"] = [{ url := newestNewsUrl }] ∧
    (["new", "x"] : List String) ≠ [] ∧
    (["new", "x"] : List String) ≠ ["new"] := by
  refine ⟨by decide, by decide, by decide⟩

/-- Claim C3 (amended): the Route Selector maps "/" to the top-stories
listing URL and "/new" to the new-stories listing URL; "/" is matched
exactly, but "/new" is matched as a segment prefix, so the recognized
paths are exactly "/" together with every path whose first segment is
"new".  The universal below characterizes `App` completely: the root
path renders exactly the top-stories view, every path whose first
segment is "new" renders exactly the new-stories view, and every other
path renders nothing. -/
theorem c3_route_mapping :
    App [] = [{ url := topNewsUrl }] ∧
    App ["new"] = [{ url := newestNewsUrl }] ∧
    (∀ segs : List String,
      (segs = [] ∧ App segs = [{ url := topNewsUrl }]) ∨
      (segs.head? = some "new" ∧ App segs = [{ url := newestNewsUrl }]) ∨
      (segs ≠ [] ∧ segs.head? ≠ some "new" ∧ App segs = [])) := by
  refine ⟨by decide, by decide, ?_⟩
  intro segs
  cases segs with
  | nil => exact Or.inl ⟨rfl, by decide⟩
  | cons a t =>
      by_cases h : a = "new"
      · subst h
        exact Or.inr (Or.inl ⟨rfl, by simp [App, matchesExactRoot, matchesNewRoute, NewNews]⟩)
      · refine Or.inr (Or.inr ⟨by simp, by simp [h], ?_⟩)
        simp [App, matchesExactRoot, matchesNewRoute, h]

/-- Claim C6: for a path matching neither route declaration, the
application renders no view at all — a well-defined no-op fallback, not
an exception: `App` is a total function and yields the empty mount list
on every unrecognized path. -/
theorem c6_unmatched_renders_nothing (segs : List String)
    (ht : matchesExactRoot segs = false) (hn : matchesNewRoute segs = false) :
    App segs = [] := by
  simp [App, ht, hn]

/-- Claim C6, witness: the unrecognized path "/about" renders nothing
and in particular does not fail. -/
theorem c6_unmatched_renders_nothing_witness : App ["about"] = [] :=
  c6_unmatched_renders_nothing ["about"] (by decide) (by decide)

/-- Claim C8: "/" is matched exactly, so at most one of the two views is
ever mounted: on "/" only the top-stories view renders, on "/new" only
the new-stories view renders, and no path mounts more than one view. -/
theorem c8_exclusive_mount :
    App [] = [{ url := topNewsUrl }] ∧
    App ["new"] = [{ url := newestNewsUrl }] ∧
    (∀ segs : List String, (App segs).length ≤ 1) := by
  refine ⟨by decide, by decide, ?_⟩
  intro segs
  cases segs with
  | nil => simp [App, matchesExactRoot, matchesNewRoute]
  | cons a t =>
      by_cases h : matchesNewRoute (a :: t) = true
      · simp [App, matchesExactRoot, h]
      · simp [App, matchesExactRoot, h]

/-- Claim C9: "/new" is declared without `exact`, so every path whose
first segment is "new" renders the new-stories view; in particular
"/new/anything", which is neither "/" nor "/new", is accepted, so the
accepted path set is strictly larger than those two paths. -/
theorem c9_new_route_matching :
    (∀ rest : List String, App ("new" :: rest) = [{ url := newestNewsUrl }]) ∧
    App ["new", "anything"] = [{ url := newestNewsUrl }] ∧
    (["new", "anything"] : List String) ≠ [] ∧
    (["new", "anything"] : List String) ≠ ["new"] := by
  refine ⟨?_, by decide, by decide, by decide⟩
  intro rest
  simp [App, matchesExactRoot, matchesNewRoute, NewNews]

/-- Claim C10: listing-URL selection is deterministic and depends only
on the path: `TopNews` and `NewNews` are constant functions passing the
fixed top-stories and new-stories URLs, and rendering the app twice on
equal paths mounts equal views. -/
theorem c10_deterministic_selection :
    (∀ x y : Unit, TopNews x = TopNews y) ∧
    TopNews () = { url := "https://hacker-news.firebaseio.com/v0/topstories.json" } ∧
    (∀ x y : Unit, NewNews x = NewNews y) ∧
    NewNews () = { url := "https://hacker-news.firebaseio.com/v0/newstories.json" } ∧
    (∀ p q : List String, p = q → App p = App q) := by
  exact ⟨fun x y => rfl, rfl, fun x y => rfl, rfl, fun p q h => by rw [h]⟩

/-! ## Claims about the List View -/

/-- Claim C1: for every listing and every order in which the per-item
fetches complete (any permutation of the listing's ids), the rendered
sequence equals the listing's id sequence, and the view is Ready; the
scenario listing [5, 3, 9] with completions in order [9, 5, 3] is the
witness below. -/
theorem c1_rendered_order (u : String) (ids perm : List Nat) (f : Nat → Item)
    (hperm : perm.Perm ids) (hf : ∀ i, (f i).id = i) :
    renderedIds (run ViewState.init
      (Event.routeChange u :: Event.listingDone u ids ::
        itemEvents u (fun i => some (f i)) perm)) = ids ∧
    (run ViewState.init
      (Event.routeChange u :: Event.listingDone u ids ::
        itemEvents u (fun i => some (f i)) perm)).phase = Phase.Ready := by
  have hrun : run ViewState.init
      (Event.routeChange u :: Event.listingDone u ids ::
        itemEvents u (fun i => some (f i)) perm) =
      { activeUrl := some u, listingLoaded := true, pendingIds := ids,
        results := perm.map (fun i => (i, some (f i))) } := by
    have h0 := run_setup u ids
    have h1 := run_itemEvents u (fun i => some (f i)) perm
        { activeUrl := some u, listingLoaded := true, pendingIds := ids, results := [] } rfl
    have h2 : run ViewState.init
        (Event.routeChange u :: Event.listingDone u ids ::
          itemEvents u (fun i => some (f i)) perm) =
        run (run ViewState.init [Event.routeChange u, Event.listingDone u ids])
          (itemEvents u (fun i => some (f i)) perm) := rfl
    rw [h2, h0, h1]
    simp
  have hr : ∀ i ∈ ids,
      findRes (perm.map (fun j => (j, some (f j)))) i = some (some (f i)) :=
    fun i hi => findRes_map (fun j => some (f j)) perm i (hperm.mem_iff.mpr hi)
  constructor
  · rw [renderedIds, hrun]
    rw [render_eq_filterMap _ (fun i => some (f i)) hr]
    rw [filterMap_map_id ids (fun i => some (f i))
      (fun i it h => by rw [← Option.some.inj h]; exact hf i)]
    simp
  · rw [hrun]
    have hall : (ids.all fun i =>
        (findRes (perm.map fun j => (j, some (f j))) i).isSome) = true :=
      List.all_eq_true.mpr (fun i hi => by rw [hr i hi]; rfl)
    simp [ViewState.phase, hall]

/-- Claim C1, witness: listing [5, 3, 9], item fetches completing in the
order [9, 5, 3], rendered sequence still [5, 3, 9]. -/
theorem c1_rendered_order_witness :
    renderedIds (run ViewState.init
      (Event.routeChange "top" :: Event.listingDone "top" [5, 3, 9] ::
        itemEvents "top" (fun i => some (mkItem i)) [9, 5, 3])) = [5, 3, 9] ∧
    (run ViewState.init
      (Event.routeChange "top" :: Event.listingDone "top" [5, 3, 9] ::
        itemEvents "top" (fun i => some (mkItem i)) [9, 5, 3])).phase = Phase.Ready :=
  c1_rendered_order "top" [5, 3, 9] [9, 5, 3] mkItem (by decide) (fun i => rfl)

/-- Claim C2: after the route changes to listing URL `u`, any sequence
of fetch completions issued for other listing URLs (the abandoned
route's in-flight fetches) leaves the view state unchanged, and the view
bound to the new route renders none of their items. -/
theorem c2_route_switch_discards (s : ViewState) (u : String) (evs : List Event)
    (hc : ∀ e ∈ evs, Event.isCompletion e = true)
    (hu : ∀ e ∈ evs, Event.url e ≠ u) :
    run (step s (Event.routeChange u)) evs = step s (Event.routeChange u) ∧
    render (run (step s (Event.routeChange u)) evs) = [] := by
  have hs : (step s (Event.routeChange u)).activeUrl = some u := rfl
  have h1 := run_stale u (step s (Event.routeChange u)) hs evs hc hu
  refine ⟨h1, ?_⟩
  rw [h1]
  rfl

/-- Claim C2, witness: with the top-stories listing [5, 3, 9] loaded and
its item fetches still in flight, switching to the new-stories route and
then receiving the stale top-stories completions leaves the new route's
view untouched and rendering nothing. -/
theorem c2_route_switch_discards_witness :
    run (step (run ViewState.init
          [Event.routeChange topNewsUrl, Event.listingDone topNewsUrl [5, 3, 9]])
        (Event.routeChange newestNewsUrl))
      [Event.itemDone topNewsUrl 5 (some (mkItem 5)),
        Event.itemDone topNewsUrl 3 (some (mkItem 3)),
        Event.itemDone topNewsUrl 9 (some (mkItem 9))] =
      step (run ViewState.init
          [Event.routeChange topNewsUrl, Event.listingDone topNewsUrl [5, 3, 9]])
        (Event.routeChange newestNewsUrl) ∧
    render (run (step (run ViewState.init
          [Event.routeChange topNewsUrl, Event.listingDone topNewsUrl [5, 3, 9]])
        (Event.routeChange newestNewsUrl))
      [Event.itemDone topNewsUrl 5 (some (mkItem 5)),
        Event.itemDone topNewsUrl 3 (some (mkItem 3)),
        Event.itemDone topNewsUrl 9 (some (mkItem 9))]) = [] :=
  c2_route_switch_discards
    (run ViewState.init [Event.routeChange topNewsUrl, Event.listingDone topNewsUrl [5, 3, 9]])
    newestNewsUrl
    [Event.itemDone topNewsUrl 5 (some (mkItem 5)),
      Event.itemDone topNewsUrl 3 (some (mkItem 3)),
      Event.itemDone topNewsUrl 9 (some (mkItem 9))]
    (by decide) (by decide)

/-- Claim C4: when some item fetches fail (return no item) and the rest
succeed, the rendered list is the subsequence of the listing keeping
exactly the ids whose fetch succeeded, in listing order, and the view
still reaches Ready — the failure is absorbed locally.  The scenario of
listing [5, 3, 9] with the fetch for id 3 failing is the witness below. -/
theorem c4_failed_item_omitted (u : String) (ids perm : List Nat) (g : Nat → Option Item)
    (hperm : perm.Perm ids) (hg : ∀ i it, g i = some it → it.id = i) :
    renderedIds (run ViewState.init
      (Event.routeChange u :: Event.listingDone u ids :: itemEvents u g perm)) =
      ids.filter (fun i => (g i).isSome) ∧
    (run ViewState.init
      (Event.routeChange u :: Event.listingDone u ids :: itemEvents u g perm)).phase =
      Phase.Ready := by
  have hrun : run ViewState.init
      (Event.routeChange u :: Event.listingDone u ids :: itemEvents u g perm) =
      { activeUrl := some u, listingLoaded := true, pendingIds := ids,
        results := perm.map (fun i => (i, g i)) } := by
    have h0 := run_setup u ids
    have h1 := run_itemEvents u g perm
        { activeUrl := some u, listingLoaded := true, pendingIds := ids, results := [] } rfl
    have h2 : run ViewState.init
        (Event.routeChange u :: Event.listingDone u ids :: itemEvents u g perm) =
        run (run ViewState.init [Event.routeChange u, Event.listingDone u ids])
          (itemEvents u g perm) := rfl
    rw [h2, h0, h1]
    simp
  have hr : ∀ i ∈ ids, findRes (perm.map (fun j => (j, g j))) i = some (g i) :=
    fun i hi => findRes_map g perm i (hperm.mem_iff.mpr hi)
  constructor
  · rw [renderedIds, hrun]
    rw [render_eq_filterMap _ g hr]
    exact filterMap_map_id ids g hg
  · rw [hrun]
    have hall : (ids.all fun i =>
        (findRes (perm.map fun j => (j, g j)) i).isSome) = true :=
      List.all_eq_true.mpr (fun i hi => by rw [hr i hi]; rfl)
    simp [ViewState.phase, hall]

/-- Claim C4, witness: listing [5, 3, 9], the fetch for id 3 fails while
the others succeed (completing in order [9, 5, 3]); the rendered
sequence is [5, 9]. -/
theorem c4_failed_item_omitted_witness :
    renderedIds (run ViewState.init
      (Event.routeChange "top" :: Event.listingDone "top" [5, 3, 9] ::
        itemEvents "top" (fun i => if i = 3 then none else some (mkItem i)) [9, 5, 3])) =
      [5, 9] :=
  ((c4_failed_item_omitted "top" [5, 3, 9] [9, 5, 3]
      (fun i => if i = 3 then none else some (mkItem i))
      (by decide)
      (fun i it h => by
        by_cases hi : i = 3
        · subst hi
          simp at h
        · simp [hi] at h
          subst h
          rfl)).1).trans (by decide)

/-- Claim C5: a listing fetch that returns the empty array leaves the
view Ready with zero rendered items — not an error state. -/
theorem c5_empty_listing_ready (u : String) :
    (run ViewState.init [Event.routeChange u, Event.listingDone u []]).phase = Phase.Ready ∧
    render (run ViewState.init [Event.routeChange u, Event.listingDone u []]) = [] := by
  rw [run_setup]
  exact ⟨rfl, rfl⟩

/-- Claim C7: the List View's lifecycle per listing URL.  The initial
state is Idle; every listing-URL change (route switch) puts the view in
Loading from any state; after the listing resolves the view stays in
Loading while an item fetch is outstanding, and reaches Ready once every
item of the current listing has resolved; and in general the view is
Ready exactly when a route is installed, its listing fetch completed,
and every listed item's fetch completed. -/
theorem c7_state_machine :
    ViewState.init.phase = Phase.Idle ∧
    (∀ s u, (step s (Event.routeChange u)).phase = Phase.Loading) ∧
    (∀ u i, (run ViewState.init
      [Event.routeChange u, Event.listingDone u [i]]).phase = Phase.Loading) ∧
    (∀ u i it, (run ViewState.init
      [Event.routeChange u, Event.listingDone u [i],
        Event.itemDone u i (some it)]).phase = Phase.Ready) ∧
    (∀ s : ViewState, s.phase = Phase.Ready ↔
      (s.activeUrl.isSome = true ∧ s.listingLoaded = true ∧
        (s.pendingIds.all fun i => (findRes s.results i).isSome) = true)) := by
  refine ⟨rfl, ?_, ?_, ?_, ?_⟩
  · intro s u
    rfl
  · intro u i
    simp [run, step, ViewState.init, ViewState.phase, findRes]
  · intro u i it
    simp [run, step, ViewState.init, ViewState.phase, findRes]
  · intro s
    rcases s with ⟨au, ll, pids, rs⟩
    cases au with
    | none => simp [ViewState.phase]
    | some v =>
        by_cases hc : (ll && (pids.all fun i => (findRes rs i).isSome)) = true
        · have hparts : ll = true ∧ (pids.all fun i => (findRes rs i).isSome) = true := by
            simpa using hc
          simp [ViewState.phase, hc, hparts.1, hparts.2]
        · have hparts : ¬(ll = true ∧ (pids.all fun i => (findRes rs i).isSome) = true) := by
            simpa using hc
          simp [ViewState.phase, hc]
          intro h1
          have h2 : ¬((pids.all fun i => (findRes rs i).isSome) = true) :=
            fun h => hparts ⟨h1, h⟩
          simpa using h2

end HackerNews
